import Mathlib

/-!
# Verification of the domain_finder_bot streaming search kernel

Shallow embedding of `src/domain_finder_bot.py`.  Text (Python `str`) is
modelled as `List Nat` of Unicode code points; the claims at issue involve
only ASCII data, and the character classes below model Python's behaviour
on the ASCII range (`re` word characters `[A-Za-z0-9_]`, ASCII lowercasing
for `re.IGNORECASE`, the line-break set of `str.splitlines`, the ASCII
whitespace stripped by `str.strip`).
-/

/-- Code points of a string literal, for concrete test inputs. -/
def bytes (s : String) : List Nat := s.data.map Char.toNat

/-- Word character of Python's `re` module (`\w` on ASCII):
alphanumeric or underscore. -/
def isWordChar (c : Nat) : Bool :=
  decide ((48 ≤ c ∧ c ≤ 57) ∨ (65 ≤ c ∧ c ≤ 90) ∨ (97 ≤ c ∧ c ≤ 122) ∨ c = 95)

/-- Alphanumeric character (the class named by the specification's
boundary description; note it excludes the underscore 95). -/
def isAlnum (c : Nat) : Bool :=
  decide ((48 ≤ c ∧ c ≤ 57) ∨ (65 ≤ c ∧ c ≤ 90) ∨ (97 ≤ c ∧ c ≤ 122))

/-- ASCII lowercasing, as applied by `re.IGNORECASE` on ASCII input. -/
def toLowerN (c : Nat) : Nat := if 65 ≤ c ∧ c ≤ 90 then c + 32 else c

/-- Line-break characters of Python's `str.splitlines`. -/
def isLineBreak (c : Nat) : Bool :=
  decide (c = 10 ∨ c = 11 ∨ c = 12 ∨ c = 13 ∨ c = 28 ∨ c = 29 ∨ c = 30 ∨
          c = 133 ∨ c = 8232 ∨ c = 8233)

/-- Whitespace stripped by Python's `str.strip` (ASCII part). -/
def isSpaceChar (c : Nat) : Bool :=
  decide (c = 32 ∨ c = 9 ∨ c = 10 ∨ c = 13 ∨ c = 11 ∨ c = 12)

/-- Python `str.strip()`: drop leading and trailing whitespace. -/
def strip (s : List Nat) : List Nat :=
  ((s.dropWhile isSpaceChar).reverse.dropWhile isSpaceChar).reverse

/-- Worker for `splitlines`: `acc` holds the reversed bytes of the line
being assembled.  A `\r\n` pair counts as a single break; a trailing
break produces no final empty line, an unterminated tail is emitted. -/
def splitlinesAux : List Nat → List Nat → List (List Nat)
  | acc, [] => if acc.isEmpty then [] else [acc.reverse]
  | acc, 13 :: 10 :: rest => acc.reverse :: splitlinesAux [] rest
  | acc, c :: rest =>
      if isLineBreak c then acc.reverse :: splitlinesAux [] rest
      else splitlinesAux (c :: acc) rest

/-- Python `str.splitlines()` on a code-point sequence. -/
def splitlines (s : List Nat) : List (List Nat) := splitlinesAux [] s

/-- Character at position `p` of `line` is a word character
(positions outside the line count as non-word). -/
def wordAt (line : List Nat) (p : Nat) : Bool :=
  match line.get? p with
  | some c => isWordChar c
  | none => false

/-- The `\b` assertion of Python `re` at position `p` of `line`:
exactly one of the two surrounding positions holds a word character. -/
def boundaryAt (line : List Nat) (p : Nat) : Bool :=
  (if p = 0 then false else wordAt line (p - 1)) != wordAt line p

/-- The `len`-character slice of `line` starting at `i`, lowercased. -/
def lowerSlice (line : List Nat) (i len : Nat) : List Nat :=
  ((line.drop i).take len).map toLowerN

/-- The pattern `\b re.escape(term) \b` (with `re.IGNORECASE`) matches at
position `i` of `line`: the term occurs literally, case-insensitively, at
`i`, and both ends sit on a `\b` boundary.  An overlong or out-of-range
slice is shorter than the term, so the slice comparison fails there. -/
def matchAt (term line : List Nat) (i : Nat) : Bool :=
  (lowerSlice line i term.length == term.map toLowerN) &&
  boundaryAt line i && boundaryAt line (i + term.length)

/-- `re.search(r'\b' + re.escape(target_domain) + r'\b', line, re.IGNORECASE)`
of line 98: some start position in `line` matches. -/
def reSearch (term line : List Nat) : Bool :=
  (List.range (line.length + 1)).any (fun i => matchAt term line i)

/-- Spec-side predicate (for comparison with `reSearch`), following the
specification's words: the term occurs case-insensitively at `i` with both
flanks a non-ALPHANUMERIC character or the start/end of the line. -/
def specDelimOcc (term line : List Nat) (i : Nat) : Bool :=
  (lowerSlice line i term.length == term.map toLowerN) &&
  decide (i + term.length ≤ line.length) &&
  (if i = 0 then true else !(isAlnum (line.getD (i - 1) 0))) &&
  ((i + term.length == line.length) || !(isAlnum (line.getD (i + term.length) 0)))

/-- Spec-side matcher as literally written in the specification. -/
def specMatch (term line : List Nat) : Bool :=
  (List.range (line.length + 1)).any (fun i => specDelimOcc term line i)

/-- Amended spec-side occurrence: flanks must be non-WORD characters
(neither alphanumeric nor underscore) or the start/end of the line. -/
def specDelimOccW (term line : List Nat) (i : Nat) : Bool :=
  (lowerSlice line i term.length == term.map toLowerN) &&
  decide (i + term.length ≤ line.length) &&
  (if i = 0 then true else !(isWordChar (line.getD (i - 1) 0))) &&
  ((i + term.length == line.length) || !(isWordChar (line.getD (i + term.length) 0)))

/-- Amended spec-side matcher. -/
def specMatchW (term line : List Nat) : Bool :=
  (List.range (line.length + 1)).any (fun i => specDelimOccW term line i)

/-- Body of the inner loop of lines 97-100: on a matching line, append the
line to the result buffer and bump `found_lines_count`. -/
def accLine (term : List Nat) (st : Nat × List (List Nat)) (line : List Nat) :
    Nat × List (List Nat) :=
  if reSearch term line then (st.1 + 1, st.2 ++ [line]) else st

/-- One iteration of the chunk loop of lines 94-100: the `if chunk:` guard
skips empty chunks; otherwise every line of `chunk.splitlines()` is
tested. -/
def searchChunk (term : List Nat) (st : Nat × List (List Nat))
    (chunk : List Nat) : Nat × List (List Nat) :=
  if chunk.isEmpty then st else (splitlines chunk).foldl (accLine term) st

/-- The whole search pass of lines 93-100 over the fetched chunk sequence:
returns `found_lines_count` and the accumulated matched lines (the
artifact is these lines each followed by a newline). -/
def searchChunks (term : List Nat) (chunks : List (List Nat)) :
    Nat × List (List Nat) :=
  chunks.foldl (searchChunk term) (0, [])

/-- The sequence of lines the search pass of lines 94-97 actually iterates
over: per-chunk `splitlines`, empty chunks skipped, in arrival order. -/
def codeLines (chunks : List (List Nat)) : List (List Nat) :=
  chunks.foldl (fun acc c => if c.isEmpty then acc else acc ++ splitlines c) []

/-!
## Session model

The bot keeps two module-level dictionaries, `user_states` (chat id →
state string) and `user_data` (chat id → per-chat dict whose only key is
`'url'`).  A dictionary entry is an `Option`; `user_data`'s per-chat dict
is a further `Option (List Nat)` (`some none` is the empty dict `{}` set
by `/start`, `some (some u)` is `{'url': u}`).  The three message
handlers and telebot's routing become pure functions from a store and a
message to a store and the list of outbound transport calls; the network
fetch of line 90 is a parameter mapping a URL to its outcome.
-/

/-- The two values `user_states` can hold: `'awaiting_url'` and
`'url_received'`. -/
inductive UState where
  | awaitingUrl
  | urlReceived
deriving DecidableEq

/-- The distinct user-visible texts the bot sends (lines 42, 57, 63, 79,
82, 104, 112, 115). -/
inductive MsgText where
  | welcome
  | invalidUrl
  | haveUrl
  | sessionError
  | searching (term : List Nat)
  | found (count : Nat)
  | noResults (term : List Nat)
  | fetchError
deriving DecidableEq

/-- Outbound transport calls: `bot.send_message` and `bot.send_document`
(the document carries the matched lines and the term naming the file). -/
inductive Out where
  | sendMessage (chat : Nat) (text : MsgText)
  | sendDocument (chat : Nat) (lines : List (List Nat)) (term : List Nat)
deriving DecidableEq

/-- Outcome of `requests.get(url, stream=True, timeout=300)` followed by
`raise_for_status()`: either the decoded chunk sequence of
`iter_content`, or a `RequestException` (connection failure, non-success
status, or timeout). -/
inductive FetchOutcome where
  | success (chunks : List (List Nat))
  | failure
deriving DecidableEq

/-- An incoming message: the `/start` command or plain text. -/
inductive Msg where
  | start
  | text (s : List Nat)
deriving DecidableEq

/-- The module-level dictionaries `user_states` and `user_data`. -/
structure Store where
  user_states : Nat → Option UState
  user_data : Nat → Option (Option (List Nat))

/-- The empty dictionaries at process start. -/
def initStore : Store := ⟨fun _ => none, fun _ => none⟩

/-- `handle_start` (lines 33-45): set state `'awaiting_url'`, reset the
chat's data dict to `{}`, send the welcome prompt. -/
def handle_start (st : Store) (chat : Nat) : Store × List Out :=
  (⟨fun c => if c = chat then some .awaitingUrl else st.user_states c,
    fun c => if c = chat then some none else st.user_data c⟩,
   [.sendMessage chat .welcome])

/-- The tuple check of line 56: `url.startswith(('http://', 'https://'))`. -/
def startsWithHttp (u : List Nat) : Bool :=
  (bytes ("http://")).isPrefixOf u || (bytes ("https://")).isPrefixOf u

/-- `handle_url` (lines 47-67): strip the text; reject non-http(s)
references leaving everything unchanged; otherwise store the URL and move
to `'url_received'`. -/
def handle_url (st : Store) (chat : Nat) (text : List Nat) : Store × List Out :=
  let url := strip text
  if startsWithHttp url then
    (⟨fun c => if c = chat then some .urlReceived else st.user_states c,
      fun c => if c = chat then some (some url) else st.user_data c⟩,
     [.sendMessage chat .haveUrl])
  else
    (st, [.sendMessage chat .invalidUrl])

/-- The reply of lines 102-112 after a successful fetch: a pure function
of the chat, the stripped term and the fetched chunks only. -/
def searchReply (chat : Nat) (target : List Nat)
    (chunks : List (List Nat)) : List Out :=
  let r := searchChunks target chunks
  if r.1 > 0 then
    [.sendMessage chat (.found r.1), .sendDocument chat r.2 target]
  else
    [.sendMessage chat (.noResults target)]

/-- `handle_domain_and_search` (lines 69-119).  The `st.user_data chat =
none` case is unreachable from `initStore` (Python raises `KeyError`
there); it is modelled as a no-op.  The `if not url:` guard of line 78
covers a missing or empty stored URL.  On a fetch failure the
`RequestException` handler of lines 114-115 reports the error and leaves
both dictionaries untouched. -/
def handle_domain_and_search (fetch : List Nat → FetchOutcome) (st : Store)
    (chat : Nat) (text : List Nat) : Store × List Out :=
  match st.user_data chat with
  | none => (st, [])
  | some d =>
    match d with
    | none => (st, [.sendMessage chat .sessionError])
    | some url =>
      if url.isEmpty then (st, [.sendMessage chat .sessionError])
      else
        match fetch url with
        | .failure => (st, [.sendMessage chat (.searching (strip text)),
                            .sendMessage chat .fetchError])
        | .success chunks =>
            (st, .sendMessage chat (.searching (strip text)) ::
                 searchReply chat (strip text) chunks)

/-- Telebot's routing: the `/start` command handler fires first; plain
text goes to the handler whose state filter matches (lines 47 and 69); a
chat with no state (never started) has no matching handler. -/
def dispatch (fetch : List Nat → FetchOutcome) (st : Store) (chat : Nat)
    (m : Msg) : Store × List Out :=
  match m with
  | .start => handle_start st chat
  | .text s =>
    match st.user_states chat with
    | some .awaitingUrl => handle_url st chat s
    | some .urlReceived => handle_domain_and_search fetch st chat s
    | none => (st, [])

/-- The session invariant of the specification's data model: a chat in
`'url_received'` (Ready) holds exactly one stored URL; a chat in
`'awaiting_url'` holds the empty data dict; an unknown chat (Idle) has no
data entry at all. -/
def SessionInv (st : Store) : Prop :=
  ∀ chat,
    (st.user_states chat = some .urlReceived →
      ∃ u, st.user_data chat = some (some u) ∧ u ≠ []) ∧
    (st.user_states chat = some .awaitingUrl → st.user_data chat = some none) ∧
    (st.user_states chat = none → st.user_data chat = none)

/-!
## Helper lemmas
-/

/-- Two characters with the same lowercasing lie in the same word class. -/
theorem isWordChar_lower_congr {a b : Nat} (h : toLowerN a = toLowerN b) :
    isWordChar a = isWordChar b := by
  unfold toLowerN at h
  unfold isWordChar
  rw [decide_eq_decide]
  split_ifs at h <;> omega

/-- A successful slice comparison bounds the occurrence inside the line
(for a nonempty term). -/
theorem lowerSlice_length_le {ln term : List Nat} {i : Nat}
    (h : lowerSlice ln i term.length = term.map toLowerN)
    (ht : term ≠ []) : i + term.length ≤ ln.length := by
  have hlen := congrArg List.length h
  simp only [lowerSlice, List.length_map, List.length_take, List.length_drop] at hlen
  have hpos : 0 < term.length := List.length_pos.mpr ht
  omega

/-- Pointwise content of a successful slice comparison. -/
theorem lowerSlice_point {ln term : List Nat} {i : Nat}
    (h : lowerSlice ln i term.length = term.map toLowerN)
    {k : Nat} (hk : k < term.length) :
    (ln[i + k]?).map toLowerN = (term[k]?).map toLowerN := by
  have hpt := congrArg (fun l => l[k]?) h
  simpa [lowerSlice, List.getElem?_map, List.getElem?_take, List.getElem?_drop, hk]
    using hpt

/-- `wordAt` at an in-range position reads the character there. -/
theorem wordAt_lt {ln : List Nat} {p : Nat} (h : p < ln.length) :
    wordAt ln p = isWordChar (ln.getD p 0) := by
  unfold wordAt
  rw [List.get?_eq_getElem?, List.getElem?_eq_getElem h,
      List.getD_eq_getElem?_getD, List.getElem?_eq_getElem h]
  rfl

/-- `wordAt` beyond the end of the line is false. -/
theorem wordAt_ge {ln : List Nat} {p : Nat} (h : ln.length ≤ p) :
    wordAt ln p = false := by
  unfold wordAt
  rw [List.get?_eq_getElem?, List.getElem?_eq_none h]

/-- Inside a matched slice, the line's word classes agree with the
term's. -/
theorem wordAt_of_slice {ln term : List Nat} {i : Nat}
    (h : lowerSlice ln i term.length = term.map toLowerN)
    {k : Nat} (hk : k < term.length) (hik : i + k < ln.length) :
    wordAt ln (i + k) = isWordChar (term.getD k 0) := by
  have hpt := lowerSlice_point h hk
  rw [List.getElem?_eq_getElem hik, List.getElem?_eq_getElem hk] at hpt
  simp only [Option.map_some', Option.some.injEq] at hpt
  rw [wordAt_lt hik, List.getD_eq_getElem?_getD, List.getElem?_eq_getElem hik,
      List.getD_eq_getElem?_getD, List.getElem?_eq_getElem hk]
  exact isWordChar_lower_congr hpt

/-- For a term whose first and last characters are word characters, the
regex match-at-position test agrees with the amended spec-side occurrence
test (flanks non-word or line edge). -/
theorem matchAt_eq_specDelimOccW {term ln : List Nat} (i : Nat)
    (h0 : term ≠ []) (hh : isWordChar (term.getD 0 0) = true)
    (hl : isWordChar (term.getD (term.length - 1) 0) = true) :
    matchAt term ln i = specDelimOccW term ln i := by
  by_cases hs : lowerSlice ln i term.length = term.map toLowerN
  case neg =>
    have hb : (lowerSlice ln i term.length == term.map toLowerN) = false :=
      beq_eq_false_iff_ne.mpr hs
    simp [matchAt, specDelimOccW, hb]
  case pos =>
    have hb : (lowerSlice ln i term.length == term.map toLowerN) = true :=
      beq_iff_eq.mpr hs
    have hpos : 0 < term.length := List.length_pos.mpr h0
    have hle : i + term.length ≤ ln.length := lowerSlice_length_le hs h0
    have hw0 : wordAt ln i = true := by
      have hp := wordAt_of_slice hs hpos (by omega)
      rw [Nat.add_zero] at hp
      exact hp.trans hh
    have hwE : wordAt ln (i + term.length - 1) = true := by
      have hp := wordAt_of_slice hs (k := term.length - 1) (by omega) (by omega)
      have heq : i + (term.length - 1) = i + term.length - 1 := by omega
      rw [heq] at hp
      exact hp.trans hl
    have hd : decide (i + term.length ≤ ln.length) = true := decide_eq_true hle
    have hleft : boundaryAt ln i =
        (if i = 0 then true else !(isWordChar (ln.getD (i - 1) 0))) := by
      by_cases hi : i = 0
      · subst hi
        unfold boundaryAt
        rw [if_pos rfl, if_pos rfl, hw0]
        rfl
      · have hi1 : i - 1 < ln.length := by omega
        unfold boundaryAt
        rw [if_neg hi, if_neg hi, wordAt_lt hi1, hw0]
        cases isWordChar (ln.getD (i - 1) 0) <;> rfl
    have hright : boundaryAt ln (i + term.length) =
        ((i + term.length == ln.length) || !(isWordChar (ln.getD (i + term.length) 0))) := by
      have hne : ¬ (i + term.length = 0) := by omega
      by_cases hE : i + term.length = ln.length
      · have hw2 : wordAt ln (i + term.length) = false := wordAt_ge (by omega)
        have hbe : (i + term.length == ln.length) = true := by
          simpa using hE
        unfold boundaryAt
        rw [if_neg hne, hwE, hw2, hbe]
        rfl
      · have hlt : i + term.length < ln.length := by omega
        have hw2 : wordAt ln (i + term.length) = isWordChar (ln.getD (i + term.length) 0) :=
          wordAt_lt hlt
        have hbe : (i + term.length == ln.length) = false := by
          simpa using hE
        unfold boundaryAt
        rw [if_neg hne, hwE, hw2, hbe]
        cases isWordChar (ln.getD (i + term.length) 0) <;> rfl
    simp only [matchAt, specDelimOccW, hb, hd, Bool.true_and]
    rw [hleft, hright]

/-- `wordAt` depends only on the lowercased line. -/
theorem wordAt_lower_congr {ln ln2 : List Nat}
    (h : ln.map toLowerN = ln2.map toLowerN) (p : Nat) :
    wordAt ln p = wordAt ln2 p := by
  have hp := congrArg (fun l => l[p]?) h
  simp only [List.getElem?_map] at hp
  unfold wordAt
  rw [List.get?_eq_getElem?, List.get?_eq_getElem?]
  cases h1 : ln[p]? with
  | none =>
    cases h2 : ln2[p]? with
    | none => rfl
    | some b => rw [h1, h2] at hp; simp at hp
  | some a =>
    cases h2 : ln2[p]? with
    | none => rw [h1, h2] at hp; simp at hp
    | some b =>
      rw [h1, h2] at hp
      simp only [Option.map_some', Option.some.injEq] at hp
      exact isWordChar_lower_congr hp

/-- `boundaryAt` depends only on the lowercased line. -/
theorem boundaryAt_lower_congr {ln ln2 : List Nat}
    (h : ln.map toLowerN = ln2.map toLowerN) (p : Nat) :
    boundaryAt ln p = boundaryAt ln2 p := by
  unfold boundaryAt
  rw [wordAt_lower_congr h, wordAt_lower_congr h]

/-- `lowerSlice` depends only on the lowercased line. -/
theorem lowerSlice_lower_congr {ln ln2 : List Nat}
    (h : ln.map toLowerN = ln2.map toLowerN) (i n : Nat) :
    lowerSlice ln i n = lowerSlice ln2 i n := by
  unfold lowerSlice
  rw [List.map_take, List.map_drop, h, ← List.map_drop, ← List.map_take]

/-- `matchAt` is invariant under changing letter case in term and line. -/
theorem matchAt_lower_congr {term term2 ln ln2 : List Nat}
    (ht : term.map toLowerN = term2.map toLowerN)
    (hl : ln.map toLowerN = ln2.map toLowerN) (i : Nat) :
    matchAt term ln i = matchAt term2 ln2 i := by
  have htl : term.length = term2.length := by
    have hc := congrArg List.length ht
    simpa using hc
  unfold matchAt
  rw [htl, ht, lowerSlice_lower_congr hl,
      boundaryAt_lower_congr hl, boundaryAt_lower_congr hl]

/-- `reSearch` is invariant under changing letter case in term and line. -/
theorem reSearch_lower_congr {term term2 ln ln2 : List Nat}
    (ht : term.map toLowerN = term2.map toLowerN)
    (hl : ln.map toLowerN = ln2.map toLowerN) :
    reSearch term ln = reSearch term2 ln2 := by
  have hll : ln.length = ln2.length := by
    have hc := congrArg List.length hl
    simpa using hc
  unfold reSearch
  rw [hll]
  congr 1
  funext i
  exact matchAt_lower_congr ht hl i

/-- The inner loop of lines 97-100 appends exactly the matching lines, in
order, and counts them. -/
theorem foldl_accLine (term : List Nat) (lines : List (List Nat)) :
    ∀ (cnt : Nat) (acc : List (List Nat)),
    lines.foldl (accLine term) (cnt, acc) =
      (cnt + (lines.filter (fun l => reSearch term l)).length,
       acc ++ lines.filter (fun l => reSearch term l)) := by
  induction lines with
  | nil => intro cnt acc; simp
  | cons hd tl ih =>
    intro cnt acc
    rw [List.foldl_cons]
    by_cases h : reSearch term hd = true
    · have ha : accLine term (cnt, acc) hd = (cnt + 1, acc ++ [hd]) := by
        simp [accLine, h]
      rw [ha, ih, List.filter_cons, if_pos h]
      simp only [List.length_cons, Prod.mk.injEq]
      exact ⟨by omega, by simp⟩
    · have ha : accLine term (cnt, acc) hd = (cnt, acc) := by
        simp [accLine, h]
      rw [ha, ih, List.filter_cons, if_neg h]

/-- `splitlines` of the empty chunk. -/
theorem splitlines_nil : splitlines [] = [] := rfl

/-- The chunk loop iterates, in order, over the per-chunk `splitlines`
sequences (empty chunks contribute nothing either way). -/
theorem foldl_chunkLines (chunks : List (List Nat)) :
    ∀ acc : List (List Nat),
    chunks.foldl (fun acc c => if c.isEmpty then acc else acc ++ splitlines c) acc
      = acc ++ (chunks.map splitlines).flatten := by
  induction chunks with
  | nil => intro acc; simp
  | cons hd tl ih =>
    intro acc
    rw [List.foldl_cons]
    by_cases h : hd.isEmpty = true
    · have hnil : hd = [] := List.isEmpty_iff.mp h
      subst hnil
      rw [if_pos h, ih]
      simp [splitlines_nil]
    · rw [if_neg h, ih]
      simp [List.append_assoc]

/-- The full double loop accumulates, over the concatenated per-chunk
line sequence, exactly the matching lines in order, with their count. -/
theorem foldl_searchChunk (term : List Nat) (chunks : List (List Nat)) :
    ∀ (cnt : Nat) (acc : List (List Nat)),
    chunks.foldl (searchChunk term) (cnt, acc) =
      (cnt + (((chunks.map splitlines).flatten).filter (fun l => reSearch term l)).length,
       acc ++ ((chunks.map splitlines).flatten).filter (fun l => reSearch term l)) := by
  induction chunks with
  | nil => intro cnt acc; simp
  | cons hd tl ih =>
    intro cnt acc
    rw [List.foldl_cons]
    have hstep : searchChunk term (cnt, acc) hd =
        (cnt + ((splitlines hd).filter (fun l => reSearch term l)).length,
         acc ++ (splitlines hd).filter (fun l => reSearch term l)) := by
      by_cases h : hd.isEmpty = true
      · have hnil : hd = [] := List.isEmpty_iff.mp h
        subst hnil
        simp [searchChunk, splitlines_nil]
      · unfold searchChunk
        rw [if_neg h]
        exact foldl_accLine term (splitlines hd) cnt acc
    rw [hstep, ih]
    simp only [List.map_cons, List.flatten_cons, List.filter_append,
               List.length_append, Prod.mk.injEq]
    exact ⟨by omega, by simp [List.append_assoc]⟩

/-- The search pass returns the matching lines of its per-chunk line
sequence, in order, together with their number. -/
theorem searchChunks_eq (term : List Nat) (chunks : List (List Nat)) :
    searchChunks term chunks =
      (((codeLines chunks).filter (fun l => reSearch term l)).length,
       (codeLines chunks).filter (fun l => reSearch term l)) := by
  unfold searchChunks codeLines
  rw [foldl_searchChunk, foldl_chunkLines]
  simp

/-- The reported count always equals the number of accumulated lines. -/
theorem searchChunks_count (term : List Nat) (chunks : List (List Nat)) :
    (searchChunks term chunks).1 = (searchChunks term chunks).2.length := by
  rw [searchChunks_eq]

/-- Shifting `wordAt` across a cons. -/
theorem wordAt_cons (c : Nat) (rest : List Nat) (p : Nat) :
    wordAt (c :: rest) (p + 1) = wordAt rest p := by
  unfold wordAt
  rw [List.get?_eq_getElem?, List.get?_eq_getElem?, List.getElem?_cons_succ]

/-- With the empty term the per-position test degenerates to the bare
boundary assertion (`\b\b` collapses to `\b`). -/
theorem matchAt_nil_eq_boundary (ln : List Nat) (i : Nat) :
    matchAt [] ln i = boundaryAt ln i := by
  unfold matchAt
  simp [lowerSlice, Bool.and_self]

/-- A boundary exists somewhere in a line exactly when the line holds at
least one word character. -/
theorem range_any_boundary (ln : List Nat) :
    (List.range (ln.length + 1)).any (fun i => boundaryAt ln i) = ln.any isWordChar := by
  induction ln with
  | nil => rfl
  | cons c rest ih =>
    by_cases hc : isWordChar c = true
    · have hw0 : wordAt (c :: rest) 0 = isWordChar c := by
        unfold wordAt
        rw [List.get?_eq_getElem?, List.getElem?_cons_zero]
      have h0 : boundaryAt (c :: rest) 0 = true := by
        unfold boundaryAt
        rw [if_pos rfl, hw0, hc]
        rfl
      rw [List.any_cons, hc, Bool.true_or]
      exact List.any_eq_true.mpr ⟨0, List.mem_range.mpr (by omega), h0⟩
    · have hcf : isWordChar c = false := by
        cases hx : isWordChar c
        · rfl
        · exact absurd hx hc
      have hw0 : wordAt (c :: rest) 0 = false := by
        unfold wordAt
        rw [List.get?_eq_getElem?, List.getElem?_cons_zero]
        exact hcf
      have hshift : ∀ i, boundaryAt (c :: rest) (i + 1) = boundaryAt rest i := by
        intro i
        unfold boundaryAt
        cases i with
        | zero =>
          rw [if_neg (by omega), if_pos rfl,
              show (0 + 1 - 1 : Nat) = 0 from rfl, hw0, wordAt_cons]
        | succ j =>
          rw [if_neg (by omega), if_neg (by omega),
              show j + 1 + 1 - 1 = j + 1 from rfl,
              show j + 1 - 1 = j from rfl, wordAt_cons, wordAt_cons]
      have hlen : (c :: rest).length + 1 = rest.length + 1 + 1 := by simp
      rw [hlen, List.range_succ_eq_map, List.any_cons, List.any_map]
      have hb0 : boundaryAt (c :: rest) 0 = false := by
        unfold boundaryAt
        rw [if_pos rfl, hw0]
        rfl
      rw [hb0, Bool.false_or, List.any_cons, hcf, Bool.false_or, ← ih]
      congr 1
      funext i
      exact hshift i

/-- Searching for the empty term marks exactly the lines holding a word
character. -/
theorem reSearch_nil_eq (ln : List Nat) :
    reSearch [] ln = ln.any isWordChar := by
  unfold reSearch
  have hfn : (fun i => matchAt [] ln i) = (fun i => boundaryAt ln i) := by
    funext i
    exact matchAt_nil_eq_boundary ln i
  rw [hfn, range_any_boundary]

/-- A reference passing the `http(s)://` check is nonempty. -/
theorem startsWithHttp_ne_nil {u : List Nat} (h : startsWithHttp u = true) :
    u ≠ [] := by
  intro he
  subst he
  simp [startsWithHttp, bytes, List.isPrefixOf] at h

/-- The search handler never modifies the dictionaries. -/
theorem handle_domain_fst (fetch : List Nat → FetchOutcome) (st : Store)
    (chat : Nat) (text : List Nat) :
    (handle_domain_and_search fetch st chat text).1 = st := by
  unfold handle_domain_and_search
  cases st.user_data chat with
  | none => rfl
  | some d =>
    cases d with
    | none => rfl
    | some url =>
      dsimp only
      by_cases hu : url.isEmpty = true
      · rw [if_pos hu]
      · rw [if_neg hu]
        cases fetch url <;> rfl

/-- Routing of a plain text message in state `'url_received'`. -/
theorem dispatch_text_received (fetch : List Nat → FetchOutcome) (st : Store)
    (chat : Nat) (s : List Nat) (h : st.user_states chat = some .urlReceived) :
    dispatch fetch st chat (.text s) = handle_domain_and_search fetch st chat s := by
  unfold dispatch
  rw [h]

/-- Routing of a plain text message in state `'awaiting_url'`. -/
theorem dispatch_text_awaiting (fetch : List Nat → FetchOutcome) (st : Store)
    (chat : Nat) (s : List Nat) (h : st.user_states chat = some .awaitingUrl) :
    dispatch fetch st chat (.text s) = handle_url st chat s := by
  unfold dispatch
  rw [h]

/-- Reduction of the search handler when the fetch fails. -/
theorem handle_search_failure (fetch : List Nat → FetchOutcome) (st : Store)
    (chat : Nat) (text url : List Nat)
    (hd : st.user_data chat = some (some url)) (hne : url ≠ [])
    (hf : fetch url = .failure) :
    handle_domain_and_search fetch st chat text =
      (st, [.sendMessage chat (.searching (strip text)),
            .sendMessage chat .fetchError]) := by
  unfold handle_domain_and_search
  rw [hd]
  dsimp only
  have hu : ¬ (url.isEmpty = true) := by
    simp [List.isEmpty_iff, hne]
  rw [if_neg hu, hf]

/-- Reduction of the search handler when the fetch succeeds. -/
theorem handle_search_success (fetch : List Nat → FetchOutcome) (st : Store)
    (chat : Nat) (text url : List Nat) (chunks : List (List Nat))
    (hd : st.user_data chat = some (some url)) (hne : url ≠ [])
    (hf : fetch url = .success chunks) :
    handle_domain_and_search fetch st chat text =
      (st, .sendMessage chat (.searching (strip text)) ::
           searchReply chat (strip text) chunks) := by
  unfold handle_domain_and_search
  rw [hd]
  dsimp only
  have hu : ¬ (url.isEmpty = true) := by
    simp [List.isEmpty_iff, hne]
  rw [if_neg hu, hf]

/-!
## Claim theorems
-/

/-- C1 (code bug): the line sequence of the search pass is NOT invariant
under chunk boundaries.  Feeding the stream `example.com\n` as the two
chunks `examp` / `le.com\n` through the per-chunk `splitlines` of line 97
(which has no carry-over buffer) yields the lines `examp`, `le.com`,
while splitting the concatenated stream yields the single line
`example.com`. -/
theorem chunk_boundary_line_sequence_bug :
    codeLines [bytes ("examp"), bytes ("le.com\n")] =
      [bytes ("examp"), bytes ("le.com")] ∧
    splitlines (bytes ("examp") ++ bytes ("le.com\n")) = [bytes ("example.com")] ∧
    codeLines [bytes ("examp"), bytes ("le.com\n")] ≠
      splitlines (bytes ("examp") ++ bytes ("le.com\n")) := by
  refine ⟨by decide, by decide, by decide⟩

/-- C3 (code bug): a source whose concatenated content contains the term
`foo.com` in exactly 2 lines, delivered as the chunks `foo.c` /
`om\nfoo.com\n`, is reported with count 1: the line split at the chunk
boundary loses its match. -/
theorem chunk_boundary_count_bug :
    ((splitlines ([bytes ("foo.c"), bytes ("om\nfoo.com\n")].flatten)).filter
        (fun l => reSearch (bytes ("foo.com")) l)).length = 2 ∧
    (searchChunks (bytes ("foo.com")) [bytes ("foo.c"), bytes ("om\nfoo.com\n")]).1 = 1 := by
  refine ⟨by decide, by decide⟩

/-- C2 (counterexample): on the line `_example.com x` the term
`example.com` is flanked by the non-alphanumeric underscore, so the
claim's iff demands a match, but the regex `\b` of line 98 treats `_` as
a word character and reports none. -/
theorem boundary_flank_underscore_counterexample :
    specMatch (bytes ("example.com")) (bytes ("_example.com x")) = true ∧
    reSearch (bytes ("example.com")) (bytes ("_example.com x")) = false := by
  refine ⟨by decide, by decide⟩

/-- C2 (amended): for a term whose first and last characters are word
characters (as in every domain name), the matcher of line 98 reports a
match iff the term occurs in the line case-insensitively with both flanks
a non-word character (neither alphanumeric nor underscore) or the
start/end of the line; the two examples of the claim hold. -/
theorem boundary_match_amended :
    (∀ term ln, term ≠ [] → isWordChar (term.getD 0 0) = true →
      isWordChar (term.getD (term.length - 1) 0) = true →
      reSearch term ln = specMatchW term ln) ∧
    reSearch (bytes ("example.com")) (bytes ("notexample.com test")) = false ∧
    reSearch (bytes ("example.com")) (bytes ("sub.example.com test")) = true := by
  refine ⟨?_, by decide, by decide⟩
  intro term ln h0 hh hl
  unfold reSearch specMatchW
  congr 1
  funext i
  exact matchAt_eq_specDelimOccW i h0 hh hl

/-- Witness for C2's amended theorem at a concrete term and line. -/
theorem boundary_match_amended_witness :
    reSearch (bytes ("example.com")) (bytes ("ab example.com cd")) =
      specMatchW (bytes ("example.com")) (bytes ("ab example.com cd")) :=
  boundary_match_amended.1 (bytes ("example.com")) (bytes ("ab example.com cd"))
    (by decide) (by decide) (by decide)

/-- C7: matching is case-insensitive — the matcher's verdict depends only
on the lowercasings of the term and of the line, so changing the case of
any letters on either side changes nothing; in particular `Example.com`
matches a line containing `example.COM`. -/
theorem match_case_insensitive :
    (∀ term term2 ln ln2, term.map toLowerN = term2.map toLowerN →
      ln.map toLowerN = ln2.map toLowerN →
      reSearch term ln = reSearch term2 ln2) ∧
    reSearch (bytes ("Example.com")) (bytes ("see example.COM now")) = true := by
  refine ⟨?_, by decide⟩
  intro term term2 ln ln2 ht hl
  exact reSearch_lower_congr ht hl

/-- Witness for C7 at concrete case variants. -/
theorem match_case_insensitive_witness :
    reSearch (bytes ("Example.com")) (bytes ("foo example.COM bar")) =
      reSearch (bytes ("example.com")) (bytes ("foo example.com bar")) :=
  match_case_insensitive.1 (bytes ("Example.com")) (bytes ("example.com"))
    (bytes ("foo example.COM bar")) (bytes ("foo example.com bar"))
    (by decide) (by decide)

/-- C8: matching is purely literal — `re.escape` makes every character of
the term, metacharacters included, match as itself, so any reported match
exhibits the term verbatim (case-insensitively) inside the line; `a.c`
does not match `abc` (a regex dot would), while `a.c` and `a(b` match
their literal occurrences. -/
theorem match_literal :
    (∀ term ln, reSearch term ln = true →
      ∃ i, i + term.length ≤ ln.length ∧
        lowerSlice ln i term.length = term.map toLowerN) ∧
    reSearch (bytes ("a.c")) (bytes ("abc")) = false ∧
    reSearch (bytes ("a.c")) (bytes ("x a.c y")) = true ∧
    reSearch (bytes ("a(b")) (bytes ("p a(b q")) = true := by
  refine ⟨?_, by decide, by decide, by decide⟩
  intro term ln h
  unfold reSearch at h
  obtain ⟨i, hmem, hm⟩ := List.any_eq_true.mp h
  unfold matchAt at hm
  have h1 : (lowerSlice ln i term.length == term.map toLowerN) = true := by
    simp only [Bool.and_eq_true] at hm
    exact hm.1.1
  have hs : lowerSlice ln i term.length = term.map toLowerN := beq_iff_eq.mp h1
  by_cases ht : term = []
  · subst ht
    have hi := List.mem_range.mp hmem
    exact ⟨i, by simpa using Nat.lt_succ_iff.mp hi, hs⟩
  · exact ⟨i, lowerSlice_length_le hs ht, hs⟩

/-- Witness for C8's literal-occurrence property at a concrete match. -/
theorem match_literal_witness :
    ∃ i, i + (bytes ("a.c")).length ≤ (bytes ("x a.c y")).length ∧
      lowerSlice (bytes ("x a.c y")) i (bytes ("a.c")).length =
        (bytes ("a.c")).map toLowerN :=
  match_literal.1 (bytes ("a.c")) (bytes ("x a.c y")) (by decide)

/-- A concrete Ready session for witnesses: chat 0 bound to a stored
URL. -/
def readyStore : Store :=
  ⟨fun c => if c = 0 then some .urlReceived else none,
   fun c => if c = 0 then some (some (bytes ("http://u/f"))) else none⟩

/-- C6: the session invariant — exactly one stored source while Ready
(`'url_received'`), none while Idle (no entry) or AwaitingSource
(`'awaiting_url'`) — holds initially, is preserved by every
message-handling operation, and a `/start` signal clears any prior
source and moves the session to `'awaiting_url'`. -/
theorem session_invariant :
    SessionInv initStore ∧
    (∀ (fetch : List Nat → FetchOutcome) (st : Store) (chat : Nat) (m : Msg),
      SessionInv st → SessionInv (dispatch fetch st chat m).1) ∧
    (∀ (fetch : List Nat → FetchOutcome) (st : Store) (chat : Nat),
      (dispatch fetch st chat .start).1.user_states chat = some .awaitingUrl ∧
      (dispatch fetch st chat .start).1.user_data chat = some none) := by
  refine ⟨?_, ?_, ?_⟩
  · intro chat
    exact ⟨fun h => by simp [initStore] at h,
           fun h => by simp [initStore] at h,
           fun h => rfl⟩
  · intro fetch st chat m hInv
    cases m with
    | start =>
      intro c
      by_cases hc : c = chat
      · subst hc
        refine ⟨fun h => ?_, fun h => ?_, fun h => ?_⟩
        · simp [dispatch, handle_start] at h
        · simp [dispatch, handle_start]
        · simp [dispatch, handle_start] at h
      · have h1 : (dispatch fetch st chat .start).1.user_states c = st.user_states c := by
          simp [dispatch, handle_start, hc]
        have h2 : (dispatch fetch st chat .start).1.user_data c = st.user_data c := by
          simp [dispatch, handle_start, hc]
        rw [h1, h2]
        exact hInv c
    | text s =>
      cases hst : st.user_states chat with
      | none =>
        have hd : dispatch fetch st chat (.text s) = (st, []) := by
          unfold dispatch
          rw [hst]
        rw [hd]
        exact hInv
      | some u =>
        cases u with
        | urlReceived =>
          have hd : (dispatch fetch st chat (.text s)).1 = st := by
            rw [dispatch_text_received fetch st chat s hst]
            exact handle_domain_fst fetch st chat s
          rw [hd]
          exact hInv
        | awaitingUrl =>
          rw [dispatch_text_awaiting fetch st chat s hst]
          unfold handle_url
          by_cases hw : startsWithHttp (strip s) = true
          · rw [if_pos hw]
            intro c
            by_cases hc : c = chat
            · subst hc
              refine ⟨fun h => ?_, fun h => ?_, fun h => ?_⟩
              · exact ⟨strip s, by simp, startsWithHttp_ne_nil hw⟩
              · simp at h
              · simp at h
            · refine ⟨fun h => ?_, fun h => ?_, fun h => ?_⟩
              · simp only [hc, if_false] at h ⊢
                simp [hc]
                exact (hInv c).1 (by simpa [hc] using h)
              · simp [hc]
                exact (hInv c).2.1 (by simpa [hc] using h)
              · simp [hc]
                exact (hInv c).2.2 (by simpa [hc] using h)
          · rw [if_neg hw]
            exact hInv
  · intro fetch st chat
    exact ⟨by simp [dispatch, handle_start], by simp [dispatch, handle_start]⟩

/-- Witness for C6: the invariant after a concrete `/start` step. -/
theorem session_invariant_witness :
    SessionInv (dispatch (fun _ => FetchOutcome.failure) initStore 0 Msg.start).1 :=
  session_invariant.2.1 (fun _ => FetchOutcome.failure) initStore 0 Msg.start
    session_invariant.1

/-- C4 (amended): a fetch failure during a search reports the error and
leaves both dictionaries — the state and the stored reference — exactly
as they were, and delivers no document; the session can repeat the
search, while a corrected reference needs the `/start` signal. -/
theorem fetch_failure_preserves_session :
    ∀ (fetch : List Nat → FetchOutcome) (st : Store) (chat : Nat)
      (text u : List Nat),
      st.user_states chat = some .urlReceived →
      st.user_data chat = some (some u) → u ≠ [] → fetch u = .failure →
      (dispatch fetch st chat (.text text)).1 = st ∧
      (dispatch fetch st chat (.text text)).2 =
        [.sendMessage chat (.searching (strip text)),
         .sendMessage chat .fetchError] := by
  intro fetch st chat text u hs hd hne hf
  rw [dispatch_text_received fetch st chat text hs,
      handle_search_failure fetch st chat text u hd hne hf]
  exact ⟨rfl, rfl⟩

/-- Witness for C4's amended theorem at a concrete failing fetch. -/
theorem fetch_failure_witness :
    (dispatch (fun _ => FetchOutcome.failure) readyStore 0
        (.text (bytes ("d")))).1 = readyStore ∧
    (dispatch (fun _ => FetchOutcome.failure) readyStore 0
        (.text (bytes ("d")))).2 =
      [.sendMessage 0 (.searching (strip (bytes ("d")))),
       .sendMessage 0 .fetchError] :=
  fetch_failure_preserves_session (fun _ => FetchOutcome.failure) readyStore 0
    (bytes ("d")) (bytes ("http://u/f")) rfl rfl (by decide) rfl

/-- Session evolution for the C4 counterexample: start, store a URL,
then a search whose fetch fails. -/
def c4Store1 : Store :=
  (dispatch (fun _ => FetchOutcome.failure) initStore 0 .start).1

/-- Second step of the C4 counterexample run. -/
def c4Store2 : Store :=
  (dispatch (fun _ => FetchOutcome.failure) c4Store1 0
    (.text (bytes ("http://old/x")))).1

/-- Third step of the C4 counterexample run (fetch failed). -/
def c4Store3 : Store :=
  (dispatch (fun _ => FetchOutcome.failure) c4Store2 0 (.text (bytes ("d")))).1

/-- C4 (counterexample): after an acquisition failure the session is
still in `'url_received'`, so a subsequent syntactically valid corrected
reference is NOT stored — it is consumed as a search term (triggering a
fetch of the old URL) and the stored reference stays the old one; only
the `/start` reset can replace it. -/
theorem corrected_reference_rejected_counterexample :
    c4Store3.user_states 0 = some .urlReceived ∧
    c4Store3.user_data 0 = some (some (bytes ("http://old/x"))) ∧
    (dispatch (fun _ => FetchOutcome.failure) c4Store3 0
        (.text (bytes ("https://corrected/y")))).1.user_data 0 =
      some (some (bytes ("http://old/x"))) ∧
    (dispatch (fun _ => FetchOutcome.failure) c4Store3 0
        (.text (bytes ("https://corrected/y")))).2 =
      [.sendMessage 0 (.searching (bytes ("https://corrected/y"))),
       .sendMessage 0 .fetchError] := by
  refine ⟨by decide, by decide, by decide, by decide⟩

/-- C5: a search with zero matches sends only the distinct "no results"
report and no document; and no handler ever sends a document with an
empty line list, so an empty artifact is never delivered. -/
theorem zero_matches_no_artifact :
    (∀ (fetch : List Nat → FetchOutcome) (st : Store) (chat : Nat)
       (text u : List Nat) (chunks : List (List Nat)),
      st.user_states chat = some .urlReceived →
      st.user_data chat = some (some u) → u ≠ [] →
      fetch u = .success chunks →
      (searchChunks (strip text) chunks).1 = 0 →
      (dispatch fetch st chat (.text text)).2 =
        [.sendMessage chat (.searching (strip text)),
         .sendMessage chat (.noResults (strip text))]) ∧
    (∀ (fetch : List Nat → FetchOutcome) (st : Store) (chat : Nat) (m : Msg)
       (c : Nat) (ls : List (List Nat)) (t : List Nat),
      Out.sendDocument c ls t ∈ (dispatch fetch st chat m).2 → ls ≠ []) := by
  constructor
  · intro fetch st chat text u chunks hs hd hne hf hz
    rw [dispatch_text_received fetch st chat text hs,
        handle_search_success fetch st chat text u chunks hd hne hf]
    simp [searchReply, hz]
  · intro fetch st chat m c ls t hmem
    cases m with
    | start =>
      simp [dispatch, handle_start] at hmem
    | text s =>
      cases hst : st.user_states chat with
      | none =>
        have hd : dispatch fetch st chat (.text s) = (st, []) := by
          unfold dispatch
          rw [hst]
        rw [hd] at hmem
        simp at hmem
      | some u =>
        cases u with
        | awaitingUrl =>
          rw [dispatch_text_awaiting fetch st chat s hst] at hmem
          unfold handle_url at hmem
          by_cases hw : startsWithHttp (strip s) = true
          · rw [if_pos hw] at hmem
            simp at hmem
          · rw [if_neg hw] at hmem
            simp at hmem
        | urlReceived =>
          rw [dispatch_text_received fetch st chat s hst] at hmem
          unfold handle_domain_and_search at hmem
          cases hdd : st.user_data chat with
          | none =>
            rw [hdd] at hmem
            simp at hmem
          | some d =>
            rw [hdd] at hmem
            cases d with
            | none => simp at hmem
            | some url =>
              dsimp only at hmem
              by_cases hu : url.isEmpty = true
              · rw [if_pos hu] at hmem
                simp at hmem
              · rw [if_neg hu] at hmem
                cases hfu : fetch url with
                | failure =>
                  rw [hfu] at hmem
                  simp at hmem
                | success chunks =>
                  rw [hfu] at hmem
                  dsimp only at hmem
                  rw [List.mem_cons] at hmem
                  rcases hmem with hmem | hmem
                  · exact absurd hmem (by simp)
                  · unfold searchReply at hmem
                    by_cases hpos : (searchChunks (strip s) chunks).1 > 0
                    · rw [if_pos hpos] at hmem
                      simp only [List.mem_cons, List.not_mem_nil,
                                 or_false] at hmem
                      rcases hmem with hmem | hmem
                      · exact absurd hmem (by simp)
                      · simp only [Out.sendDocument.injEq] at hmem
                        obtain ⟨h1, h2, h3⟩ := hmem
                        subst h2
                        intro hnil
                        have hcnt := searchChunks_count (strip s) chunks
                        rw [hnil] at hcnt
                        simp at hcnt
                        omega
                    · rw [if_neg hpos] at hmem
                      simp at hmem

/-- Witness for C5's zero-match reply at a concrete search. -/
theorem zero_matches_witness :
    (dispatch (fun _ => FetchOutcome.success [bytes ("alpha beta")]) readyStore 0
        (.text (bytes ("zzz")))).2 =
      [Out.sendMessage 0 (.searching (strip (bytes ("zzz")))),
       Out.sendMessage 0 (.noResults (strip (bytes ("zzz"))))] :=
  zero_matches_no_artifact.1 (fun _ => FetchOutcome.success [bytes ("alpha beta")])
    readyStore 0 (bytes ("zzz")) (bytes ("http://u/f")) [bytes ("alpha beta")]
    rfl rfl (by decide) rfl (by decide)

/-- C9: in the Ready state a search mutates nothing, so a second search
behaves exactly as if the first had never happened, stays accepted
without reacquisition, and its reply is a function of the fetched chunks
and its own term only. -/
theorem repeated_search_independent :
    ∀ (fetch : List Nat → FetchOutcome) (st : Store) (chat : Nat)
      (t1 t2 u : List Nat),
      st.user_states chat = some .urlReceived →
      st.user_data chat = some (some u) → u ≠ [] →
      ((dispatch fetch st chat (.text t1)).1 = st ∧
       dispatch fetch (dispatch fetch st chat (.text t1)).1 chat (.text t2) =
         dispatch fetch st chat (.text t2) ∧
       (∀ chunks, fetch u = .success chunks →
         (dispatch fetch st chat (.text t2)).2 =
           .sendMessage chat (.searching (strip t2)) ::
             searchReply chat (strip t2) chunks)) := by
  intro fetch st chat t1 t2 u hs hd hne
  have h1 : (dispatch fetch st chat (.text t1)).1 = st := by
    rw [dispatch_text_received fetch st chat t1 hs]
    exact handle_domain_fst fetch st chat t1
  refine ⟨h1, by rw [h1], ?_⟩
  intro chunks hf
  rw [dispatch_text_received fetch st chat t2 hs,
      handle_search_success fetch st chat t2 u chunks hd hne hf]

/-- Witness for C9 at two concrete consecutive searches. -/
theorem repeated_search_witness :
    dispatch (fun _ => FetchOutcome.success [bytes ("p q")])
        (dispatch (fun _ => FetchOutcome.success [bytes ("p q")]) readyStore 0
          (.text (bytes ("p")))).1 0 (.text (bytes ("q"))) =
      dispatch (fun _ => FetchOutcome.success [bytes ("p q")]) readyStore 0
        (.text (bytes ("q"))) :=
  (repeated_search_independent (fun _ => FetchOutcome.success [bytes ("p q")])
    readyStore 0 (bytes ("p")) (bytes ("q")) (bytes ("http://u/f"))
    rfl rfl (by decide)).2.1

/-- C10: a whitespace-only message strips to the empty term, which the
handler accepts and searches with (no rejection); the degenerate pattern
`\b\b` then marks exactly the lines holding at least one word character
(alphanumeric or underscore), and the reported count is the number of
such lines. -/
theorem empty_term_matches_word_lines :
    (∀ raw, strip raw = [] →
      ∀ ln, reSearch (strip raw) ln = ln.any isWordChar) ∧
    (∀ (fetch : List Nat → FetchOutcome) (st : Store) (chat : Nat)
       (text u : List Nat) (chunks : List (List Nat)),
      st.user_states chat = some .urlReceived →
      st.user_data chat = some (some u) → u ≠ [] →
      fetch u = .success chunks → strip text = [] →
      (dispatch fetch st chat (.text text)).2 =
        .sendMessage chat (.searching []) :: searchReply chat [] chunks) ∧
    (∀ chunks : List (List Nat), (searchChunks [] chunks).1 =
      ((codeLines chunks).filter (fun l => l.any isWordChar)).length) := by
  refine ⟨?_, ?_, ?_⟩
  · intro raw hraw ln
    rw [hraw]
    exact reSearch_nil_eq ln
  · intro fetch st chat text u chunks hs hd hne hf hstrip
    rw [dispatch_text_received fetch st chat text hs,
        handle_search_success fetch st chat text u chunks hd hne hf, hstrip]
  · intro chunks
    rw [searchChunks_eq]
    have hfe : (codeLines chunks).filter (fun l => reSearch [] l) =
        (codeLines chunks).filter (fun l => l.any isWordChar) :=
      List.filter_congr (fun l _ => reSearch_nil_eq l)
    rw [hfe]

/-- Witness for C10 at a concrete whitespace message and line. -/
theorem empty_term_witness :
    reSearch (strip (bytes ("  "))) (bytes ("a b")) = (bytes ("a b")).any isWordChar :=
  empty_term_matches_word_lines.1 (bytes ("  ")) (by decide) (bytes ("a b"))

-- sanity checks of the splitlines embedding against Python behaviour
example : splitlines (bytes ("a\r\nb\nc")) = [bytes ("a"), bytes ("b"), bytes ("c")] := by decide
example : splitlines (bytes ("ab\n")) = [bytes ("ab")] := by decide
example : strip (bytes (" a b ")) = bytes ("a b") := by decide
